import Mathlib

/-!
Verification of the `apply-patch` engine of the `partial-edit` repository
(`src/lib/apply-patch.ts`), shallowly embedded in Lean.

Strings are modelled by Lean `String`; JavaScript iteration is modelled by
fuel-based structural recursion (the fuel given at every call site strictly
dominates the number of loop iterations the JavaScript code can perform);
thrown `DiffError`s are modelled by `Except DiffError`; JavaScript objects
used as ordered string maps are modelled by association lists in insertion
order.
-/

-- ------------------------------------------------------------------ --
-- String helpers (JavaScript semantics)
-- ------------------------------------------------------------------ --

/-- The character class of JavaScript `\s` (as used by `replace(/\s+$/,"")`)
and of `String.prototype.trim`. -/
def isJsWhitespace (c : Char) : Bool :=
  c = ' ' || c = '\t' || c = '\n' || c = '\x0b' || c = '\x0c' || c = '\r' ||
  c = '\u00A0' || c = '\u1680' || ('\u2000' ≤ c && c ≤ '\u200A') ||
  c = '\u2028' || c = '\u2029' || c = '\u202F' || c = '\u205F' ||
  c = '\u3000' || c = '\uFEFF'

/-- JavaScript `s.replace(/\s+$/, "")`: strip trailing whitespace. -/
def rstrip (s : String) : String :=
  String.mk ((s.data.reverse.dropWhile isJsWhitespace).reverse)

/-- JavaScript `s.trim()`: strip leading and trailing whitespace. -/
def jsTrim (s : String) : String :=
  String.mk (((s.data.dropWhile isJsWhitespace).reverse.dropWhile isJsWhitespace).reverse)

/-- `Parser._norm` (apply-patch.ts line 82): `line.replace(/\r$/, "")`,
i.e. drop a single trailing carriage return when present. -/
def normLine (line : String) : String :=
  if line.data.getLast? = some '\r' then String.mk line.data.dropLast else line

/-- JavaScript `s.startsWith(p)`. -/
def jsStartsWith (s p : String) : Bool :=
  p.data.isPrefixOf s.data

/-- JavaScript `s.substring(n)` (for our ASCII prefixes, code units = chars). -/
def strDrop (s : String) (n : Nat) : String :=
  String.mk (s.data.drop n)

/-- Auxiliary recursion for `splitNl`. -/
def splitNlAux : List Char → List Char → List String
  | [], acc => [String.mk acc.reverse]
  | c :: cs, acc =>
    if c = '\n' then String.mk acc.reverse :: splitNlAux cs []
    else splitNlAux cs (c :: acc)

/-- JavaScript `text.split("\n")` (preserves empty lines, `"" ↦ [""]`). -/
def splitNl (s : String) : List String :=
  splitNlAux s.data []

/-- JavaScript `array.join("\n")`. -/
def joinNl : List String → String
  | [] => ""
  | [s] => s
  | s :: rest => s ++ "\n" ++ joinNl rest

-- ------------------------------------------------------------------ --
-- Domain objects (apply-patch.ts lines 9-54)
-- ------------------------------------------------------------------ --

/-- `ActionType` (apply-patch.ts line 9). -/
inductive ActionType
  | add
  | delete
  | update
deriving DecidableEq

/-- `Chunk` (apply-patch.ts line 39). -/
structure Chunk where
  origIndex : Nat
  delLines : List String
  insLines : List String
deriving DecidableEq

/-- `PatchAction` (apply-patch.ts line 45). -/
structure PatchAction where
  type : ActionType
  newFile : Option String := none
  chunks : List Chunk := []
  movePath : Option String := none
deriving DecidableEq

/-- `Patch` (apply-patch.ts line 52); the `Record` is an insertion-ordered
map with unique keys, modelled as an association list. -/
structure Patch where
  actions : List (String × PatchAction)
deriving DecidableEq

/-- `FileChange` (apply-patch.ts line 15). -/
structure FileChange where
  type : ActionType
  oldContent : Option String := none
  newContent : Option String := none
  movePath : Option String := none
deriving DecidableEq

/-- `Commit` (apply-patch.ts line 22). -/
structure Commit where
  changes : List (String × FileChange)
deriving DecidableEq

/-- `DiffError` (apply-patch.ts line 29): the engine's single error kind. -/
structure DiffError where
  message : String
deriving DecidableEq

/-- Whether an `Except` computation succeeded. -/
def isOkE {α : Type} : Except DiffError α → Bool
  | .ok _ => true
  | .error _ => false

instance {ε α : Type} [DecidableEq ε] [DecidableEq α] : DecidableEq (Except ε α) := fun a b =>
  match a, b with
  | .ok x, .ok y =>
    if h : x = y then .isTrue (by rw [h]) else .isFalse (fun c => by cases c; exact h rfl)
  | .error x, .error y =>
    if h : x = y then .isTrue (by rw [h]) else .isFalse (fun c => by cases c; exact h rfl)
  | .ok _, .error _ => .isFalse (fun c => by cases c)
  | .error _, .ok _ => .isFalse (fun c => by cases c)

-- ------------------------------------------------------------------ --
-- The fuzzy context locator (apply-patch.ts lines 293-355)
-- ------------------------------------------------------------------ --

/-- First index `j ∈ [i, i+fuel)` with `p j = true`, scanning left to right.
Models a JavaScript `for` loop whose body only tests `p`. -/
def scanFirst (p : Nat → Bool) : Nat → Nat → Option Nat
  | _, 0 => none
  | i, fuel + 1 => if p i then some i else scanFirst p (i + 1) fuel

/-- Scan positions `start, start+1, …, n` (enough fuel to cover every
candidate of a loop bounded by an array of length `n`). -/
def scanRange (p : Nat → Bool) (start n : Nat) : Option Nat :=
  scanFirst p start (n + 1 - start)

/-- The identity comparison used by tier 1 of the locator. -/
def idf : String → String := fun s => s

/-- Does context `C` match `L` at position `i` after mapping both sides
through `f`?  (`arraysEqual(L.slice(i, i+C.length).map f, C.map f)`,
with the loop bound `i + C.length ≤ L.length` folded in.) -/
def tierMatch (f : String → String) (L C : List String) (i : Nat) : Bool :=
  decide (i + C.length ≤ L.length) && (((L.drop i).take C.length).map f == C.map f)

/-- `findContextCore` (apply-patch.ts lines 293-327): the three-tier ladder.
A result of `(none, 0)` models the JavaScript return value `[-1, 0]`. -/
def findContextCore (lines context : List String) (start : Nat) : Option Nat × Nat :=
  if context.length = 0 then (some start, 0)
  else
    match scanRange (tierMatch idf lines context) start lines.length with
    | some i => (some i, 0)
    | none =>
      match scanRange (tierMatch rstrip lines context) start lines.length with
      | some i => (some i, 1)
      | none =>
        match scanRange (tierMatch jsTrim lines context) start lines.length with
        | some i => (some i, 100)
        | none => (none, 0)

/-- `findContext` (apply-patch.ts lines 333-355).  `lines.length -
context.length` is Nat subtraction, which equals the JavaScript
`Math.max(0, lines.length - context.length)`. -/
def findContext (lines context : List String) (start : Nat) (eof : Bool) :
    Option Nat × Nat :=
  if eof then
    match findContextCore lines context (lines.length - context.length) with
    | (some i, fuzz) => (some i, fuzz)
    | (none, _) =>
      let r := findContextCore lines context start
      (r.1, r.2 + 10000)
  else findContextCore lines context start

-- ------------------------------------------------------------------ --
-- Section peeking (apply-patch.ts lines 357-460)
-- ------------------------------------------------------------------ --

/-- The `mode` variable of `peekNextSection` (source values `"keep"`,
`"add"`, `"delete"`). -/
inductive Mode
  | keep
  | add
  | delete
deriving DecidableEq

/-- The loop state of `peekNextSection`. -/
structure SectionState where
  old : List String
  delLines : List String
  insLines : List String
  chunks : List Chunk
  mode : Mode
  index : Nat
deriving DecidableEq

/-- The chunk-flush step of `peekNextSection` (lines 420-430 and 442-448):
push a chunk when there are pending insertions or deletions, then clear
the pending lists.  `old.length - delLines.length` never truncates because
every pending deleted line was also pushed onto `old`. -/
def flushChunk (st : SectionState) : SectionState :=
  if st.insLines ≠ [] ∨ st.delLines ≠ [] then
    { st with
      chunks := st.chunks ++
        [{ origIndex := st.old.length - st.delLines.length
           delLines := st.delLines
           insLines := st.insLines }]
      delLines := []
      insLines := [] }
  else { st with delLines := [], insLines := [] }

/-- The `while` loop of `peekNextSection` (lines 368-440).  One unit of
fuel per iteration; the loop consumes one line per iteration, so
`lines.length + 1` fuel always suffices. -/
def peekLoop (lines : List String) (st : SectionState) :
    Nat → Except DiffError SectionState
  | 0 => .error ⟨"section loop fuel exhausted"⟩
  | fuel + 1 =>
    match lines.get? st.index with
    | none => .ok st
    | some s =>
      -- `if (!s) { index += 1; continue; }`: an empty line is skipped.
      if s = "" then peekLoop lines { st with index := st.index + 1 } fuel
      else if jsStartsWith s "@@" || jsStartsWith s "*** End Patch" ||
              jsStartsWith s "*** Update File:" || jsStartsWith s "*** Delete File:" ||
              jsStartsWith s "*** Add File:" || jsStartsWith s "*** End of File" then
        .ok st
      else if s = "***" then .ok st
      else if jsStartsWith s "***" then .error ⟨"Invalid Line: " ++ s⟩
      else
        -- source line 404, `if (s === "") { line = " " }`, is unreachable
        -- here: the empty line was already skipped above.
        match s.data with
        | [] => .error ⟨"Invalid Line: " ++ s⟩
        | c :: rest =>
          if c = '+' ∨ c = '-' ∨ c = ' ' then
            let lastMode := st.mode
            let mode := if c = '+' then Mode.add else if c = '-' then Mode.delete else Mode.keep
            let payload := String.mk rest
            let st1 := { st with index := st.index + 1 }
            let st2 := if mode = Mode.keep ∧ lastMode ≠ mode then flushChunk st1 else st1
            let st3 :=
              match mode with
              | Mode.delete =>
                { st2 with delLines := st2.delLines ++ [payload]
                           old := st2.old ++ [payload], mode := mode }
              | Mode.add => { st2 with insLines := st2.insLines ++ [payload], mode := mode }
              | Mode.keep => { st2 with old := st2.old ++ [payload], mode := mode }
            peekLoop lines st3 fuel
          else .error ⟨"Invalid Line: " ++ s⟩

/-- `peekNextSection` (apply-patch.ts lines 357-460): returns the hunk's
`old` context, its chunks (with `origIndex` relative to `old`), the index
just past the section, and whether the section ended in `*** End of File`. -/
def peekNextSection (lines : List String) (index : Nat) :
    Except DiffError (List String × List Chunk × Nat × Bool) :=
  match peekLoop lines
      { old := [], delLines := [], insLines := [], chunks := [],
        mode := Mode.keep, index := index } (lines.length + 1) with
  | .error e => .error e
  | .ok st0 =>
    let st := flushChunk st0
    if lines.get? st.index = some "*** End of File" then
      .ok (st.old, st.chunks, st.index + 1, true)
    else if st.index = index then .error ⟨"Nothing in this section"⟩
    else .ok (st.old, st.chunks, st.index, false)

-- ------------------------------------------------------------------ --
-- Parser (apply-patch.ts lines 59-288)
-- ------------------------------------------------------------------ --

/-- `Parser.isDone` (lines 90-102), specialised to a non-empty prefix list
as at every call site. -/
def isDone (lines : List String) (index : Nat) (prefixes : List String) : Bool :=
  match lines.get? index with
  | none => true
  | some l => prefixes.any (fun q => jsStartsWith (normLine l) q)

/-- `Parser.readStr` (lines 109-123): consume the current line when its
CR-normalised form starts with `pfx`, returning the raw text after the
prefix; otherwise return `""` without consuming.  The result is the pair
of the returned string and the new line index. -/
def readStr (lines : List String) (index : Nat) (pfx : String) :
    Except DiffError (String × Nat) :=
  if pfx = "" then .error ⟨"readStr() requires a non-empty prefix"⟩
  else
    match lines.get? index with
    | none => .error ⟨"Unexpected end of input while parsing patch"⟩
    | some l =>
      if jsStartsWith (normLine l) pfx then .ok (strDrop l pfx.length, index + 1)
      else .ok ("", index)

/-- The anchor-resolution block of `Parser._parseUpdateFile`
(lines 217-238): given the file's lines, the `@@ ` anchor text and the
per-file cursor, return the new cursor and the fuzz increment.  The exact
scan is skipped when the anchor already occurs before the cursor; likewise
for the trim-equal scan. -/
def resolveAnchor (fileLines : List String) (defStr : String) (index : Nat) :
    Nat × Nat :=
  match (if (fileLines.take index).contains defStr then none
         else scanFirst (fun i => fileLines.getD i "" == defStr) index
           (fileLines.length - index) : Option Nat) with
  | some i => (i + 1, 0)
  | none =>
    match (if ((fileLines.take index).map jsTrim).contains (jsTrim defStr) then none
           else scanFirst (fun i => jsTrim (fileLines.getD i "") == jsTrim defStr) index
             (fileLines.length - index) : Option Nat) with
    | some i => (i + 1, 1)
    | none => (index, 0)

/-- `moveTo || undefined` (line 149): an empty move target is recorded as
absent. -/
def orUndefined (s : String) : Option String :=
  if s = "" then none else some s

/-- The hunk loop of `Parser._parseUpdateFile` (lines 198-259).  State:
`pindex` is the parser's cursor into the patch lines, `findex` the cursor
into the file's lines, `chunksAcc` the chunks collected so far and `fuzz`
the parser's fuzz accumulator.  Each iteration consumes at least one patch
line, so `lines.length + 1` fuel suffices. -/
def parseUpdateLoop (fileLines lines : List String) (pindex findex : Nat)
    (chunksAcc : List Chunk) (fuzz : Nat) :
    Nat → Except DiffError (List Chunk × Nat × Nat)
  | 0 => .error ⟨"update loop fuel exhausted"⟩
  | fuel + 1 =>
    if isDone lines pindex
        ["*** End Patch", "*** Update File:", "*** Delete File:", "*** Add File:",
         "*** End of File"] then
      .ok (chunksAcc, pindex, fuzz)
    else
      match readStr lines pindex "@@ " with
      | .error e => .error e
      | .ok (defStr, i1) =>
        let sectionRes : Except DiffError (String × Nat) :=
          if defStr = "" then
            match lines.get? i1 with
            | none => .error ⟨"Unexpected end of input while parsing patch"⟩
            | some l => if normLine l = "@@" then .ok (l, i1 + 1) else .ok ("", i1)
          else .ok ("", i1)
        match sectionRes with
        | .error e => .error e
        | .ok (sectionStr, i2) =>
          if defStr = "" ∧ sectionStr = "" ∧ findex ≠ 0 then
            match lines.get? i2 with
            | none => .error ⟨"Unexpected end of input while parsing patch"⟩
            | some l => .error ⟨"Invalid line in update section:\n" ++ l⟩
          else
            let anchored :=
              if jsTrim defStr ≠ "" then resolveAnchor fileLines defStr findex
              else (findex, 0)
            match peekNextSection lines i2 with
            | .error e => .error e
            | .ok (nextCtx, chunks, endIdx, eof) =>
              match findContext fileLines nextCtx anchored.1 eof with
              | (none, _) =>
                .error ⟨"Invalid " ++ (if eof then "EOF " else "") ++ "context at " ++
                  Nat.repr anchored.1 ++ ":\n" ++ joinNl nextCtx⟩
              | (some newIndex, fz) =>
                parseUpdateLoop fileLines lines endIdx (newIndex + nextCtx.length)
                  (chunksAcc ++ chunks.map (fun ch =>
                    { ch with origIndex := ch.origIndex + newIndex }))
                  (fuzz + anchored.2 + fz) fuel

/-- The body loop of `Parser._parseAddFile` (lines 264-287): every line of
an add-file body must start with `+`; the payload after the `+` is
collected. -/
def parseAddLoop (lines : List String) (pindex : Nat) (acc : List String) :
    Nat → Except DiffError (List String × Nat)
  | 0 => .error ⟨"add loop fuel exhausted"⟩
  | fuel + 1 =>
    if isDone lines pindex
        ["*** End Patch", "*** Update File:", "*** Delete File:", "*** Add File:"] then
      .ok (acc, pindex)
    else
      match lines.get? pindex with
      | none => .error ⟨"Unexpected end of input while parsing patch"⟩
      | some s =>
        if jsStartsWith s "+" then parseAddLoop lines (pindex + 1) (acc ++ [strDrop s 1]) fuel
        else .error ⟨"Invalid Add File line (missing +): " ++ s⟩

/-- The action loop of `Parser.parse` (lines 135-184).  `files` is the
input file collection; `actions` accumulates the patch's actions in
insertion order; `fuzz` is the parser's fuzz counter. -/
def parseLoop (files : List (String × String)) (lines : List String) (pindex : Nat)
    (actions : List (String × PatchAction)) (fuzz : Nat) :
    Nat → Except DiffError (List (String × PatchAction) × Nat × Nat)
  | 0 => .error ⟨"parse loop fuel exhausted"⟩
  | fuel + 1 =>
    if isDone lines pindex ["*** End Patch"] then .ok (actions, pindex, fuzz)
    else
      match readStr lines pindex "*** Update File: " with
      | .error e => .error e
      | .ok (path, i1) =>
        if path ≠ "" then
          if (List.lookup path actions).isSome then
            .error ⟨"Duplicate update for file: " ++ path⟩
          else
            match readStr lines i1 "*** Move to: " with
            | .error e => .error e
            | .ok (moveTo, i2) =>
              match List.lookup path files with
              | none => .error ⟨"Update File Error - missing file: " ++ path⟩
              | some text =>
                match parseUpdateLoop (splitNl text) lines i2 0 [] fuzz
                    (lines.length + 1) with
                | .error e => .error e
                | .ok (chunks, i3, fuzz3) =>
                  parseLoop files lines i3
                    (actions ++ [(path,
                      { type := ActionType.update, newFile := none,
                        chunks := chunks, movePath := orUndefined moveTo })])
                    fuzz3 fuel
        else
          match readStr lines i1 "*** Delete File: " with
          | .error e => .error e
          | .ok (delPath, i2) =>
            if delPath ≠ "" then
              if (List.lookup delPath actions).isSome then
                .error ⟨"Duplicate delete for file: " ++ delPath⟩
              else if (List.lookup delPath files).isNone then
                .error ⟨"Delete File Error - missing file: " ++ delPath⟩
              else
                parseLoop files lines i2
                  (actions ++ [(delPath, { type := ActionType.delete })]) fuzz fuel
            else
              match readStr lines i2 "*** Add File: " with
              | .error e => .error e
              | .ok (addPath, i3) =>
                if addPath ≠ "" then
                  if (List.lookup addPath actions).isSome then
                    .error ⟨"Duplicate add for file: " ++ addPath⟩
                  else if (List.lookup addPath files).isSome then
                    .error ⟨"Add File Error - file already exists: " ++ addPath⟩
                  else
                    match parseAddLoop lines i3 [] (lines.length + 1) with
                    | .error e => .error e
                    | .ok (addLines, i4) =>
                      parseLoop files lines i4
                        (actions ++ [(addPath,
                          { type := ActionType.add, newFile := some (joinNl addLines) })])
                        fuzz fuel
                else
                  match lines.get? i3 with
                  | none => .error ⟨"Unexpected end of input while parsing patch"⟩
                  | some l => .error ⟨"Unknown line while parsing: " ++ l⟩

/-- `Parser.parse` (lines 135-190) run from `startIndex` on `lines`:
the action loop followed by the `*** End Patch` sentinel check. -/
def parseAll (files : List (String × String)) (lines : List String)
    (startIndex : Nat) : Except DiffError (Patch × Nat) :=
  match parseLoop files lines startIndex [] 0 (lines.length + 1) with
  | .error e => .error e
  | .ok (actions, endIndex, fuzz) =>
    match lines.get? endIndex with
    | none => .error ⟨"Unexpected end of input while parsing patch"⟩
    | some l =>
      if jsStartsWith (normLine l) "*** End Patch" then .ok ({ actions := actions }, fuzz)
      else .error ⟨"Missing *** End Patch sentinel"⟩

/-- The sentinel framing check of `textToPatch` (lines 537-543). -/
def framingOk (lines : List String) : Bool :=
  decide (2 ≤ lines.length) &&
  jsStartsWith (normLine (lines.headD "")) "*** Begin Patch" &&
  (normLine (lines.getLastD "") == "*** End Patch")

/-- `textToPatch` (apply-patch.ts lines 534-548). -/
def textToPatch (text : String) (orig : List (String × String)) :
    Except DiffError (Patch × Nat) :=
  let lines := splitNl text
  if framingOk lines then parseAll orig lines 1
  else .error ⟨"Invalid patch text - missing sentinels"⟩

-- ------------------------------------------------------------------ --
-- Committer and applier (apply-patch.ts lines 465-607)
-- ------------------------------------------------------------------ --

/-- The chunk loop of `getUpdatedFile` (lines 474-494): `dest` is the
accumulated output, `cursor` the running index into `origLines`
(the source's local `origIndex`). -/
def getUpdatedGo (origLines : List String) (path : String) :
    List Chunk → List String → Nat → Except DiffError (List String)
  | [], dest, cursor => .ok (dest ++ origLines.drop cursor)
  | ch :: rest, dest, cursor =>
    if ch.origIndex > origLines.length then
      .error ⟨path ++ ": chunk.origIndex " ++ Nat.repr ch.origIndex ++ " exceeds file length"⟩
    else if cursor > ch.origIndex then
      .error ⟨path ++ ": overlapping chunks at " ++ Nat.repr cursor ++ " > " ++
        Nat.repr ch.origIndex⟩
    else
      getUpdatedGo origLines path rest
        (dest ++ (origLines.drop cursor).take (ch.origIndex - cursor) ++ ch.insLines)
        (ch.origIndex + ch.delLines.length)

/-- `getUpdatedFile` (apply-patch.ts lines 465-496). -/
def getUpdatedFile (text : String) (action : PatchAction) (path : String) :
    Except DiffError String :=
  if action.type ≠ ActionType.update then
    .error ⟨"getUpdatedFile called with non-update action"⟩
  else
    match getUpdatedGo (splitNl text) path action.chunks [] 0 with
    | .error e => .error e
    | .ok dest => .ok (joinNl dest)

/-- The action loop of `patchToCommit` (lines 501-526).  An `Update`
action whose path is missing from `orig` would dereference `undefined` in
the source (`orig[path]!`); that crash is modelled as an error. -/
def patchToCommitGo (orig : List (String × String)) :
    List (String × PatchAction) → Except DiffError (List (String × FileChange))
  | [] => .ok []
  | (path, action) :: rest =>
    match action.type with
    | ActionType.delete =>
      match patchToCommitGo orig rest with
      | .error e => .error e
      | .ok r =>
        .ok ((path, { type := ActionType.delete, oldContent := List.lookup path orig }) :: r)
    | ActionType.add =>
      match action.newFile with
      | none => .error ⟨"ADD action without file content"⟩
      | some c =>
        match patchToCommitGo orig rest with
        | .error e => .error e
        | .ok r => .ok ((path, { type := ActionType.add, newContent := some c }) :: r)
    | ActionType.update =>
      match List.lookup path orig with
      | none => .error ⟨"TypeError: undefined has no properties"⟩
      | some text =>
        match getUpdatedFile text action path with
        | .error e => .error e
        | .ok newContent =>
          match patchToCommitGo orig rest with
          | .error e => .error e
          | .ok r =>
            .ok ((path,
              { type := ActionType.update, oldContent := some text,
                newContent := some newContent, movePath := action.movePath }) :: r)

/-- `patchToCommit` (apply-patch.ts lines 498-529). -/
def patchToCommit (patch : Patch) (orig : List (String × String)) :
    Except DiffError Commit :=
  match patchToCommitGo orig patch.actions with
  | .error e => .error e
  | .ok changes => .ok { changes := changes }

/-- JavaScript object assignment `result[k] = v`: replace in place when the
key is present, append otherwise. -/
def recordSet (r : List (String × String)) (k v : String) : List (String × String) :=
  if r.any (fun kv => kv.1 == k) then
    r.map (fun kv => if kv.1 == k then (k, v) else kv)
  else r ++ [(k, v)]

/-- `change.movePath || path` (line 588): an absent or empty move path
falls back to the original path. -/
def jsOrPath (movePath : Option String) (path : String) : String :=
  match movePath with
  | none => path
  | some m => if m = "" then path else m

/-- The change loop of `applyCommit` (lines 576-591). -/
def applyCommitGo :
    List (String × FileChange) → List (String × String) →
    Except DiffError (List (String × String))
  | [], result => .ok result
  | (path, change) :: rest, result =>
    match change.type with
    | ActionType.delete => applyCommitGo rest result
    | ActionType.add =>
      match change.newContent with
      | none => .error ⟨"ADD change for " ++ path ++ " has no content"⟩
      | some c => applyCommitGo rest (recordSet result path c)
    | ActionType.update =>
      match change.newContent with
      | none => .error ⟨"UPDATE change for " ++ path ++ " has no new content"⟩
      | some c => applyCommitGo rest (recordSet result (jsOrPath change.movePath path) c)

/-- `applyCommit` (apply-patch.ts lines 573-594). -/
def applyCommit (commit : Commit) : Except DiffError (List (String × String)) :=
  applyCommitGo commit.changes []

/-- `processPatch` (apply-patch.ts lines 596-607). -/
def processPatch (text : String) (orig : List (String × String)) :
    Except DiffError (List (String × String)) :=
  if ¬ jsStartsWith text "*** Begin Patch" then
    .error ⟨"Patch text must start with *** Begin Patch"⟩
  else
    match textToPatch text orig with
    | .error e => .error e
    | .ok (patch, _fuzz) =>
      match patchToCommit patch orig with
      | .error e => .error e
      | .ok commit => applyCommit commit

/-- `identifyFilesNeeded` (apply-patch.ts lines 550-561): all update-file
paths, then all delete-file paths. -/
def identifyFilesNeeded (text : String) : List String :=
  let lines := splitNl text
  ((lines.filter (fun l => jsStartsWith l "*** Update File: ")).map
      (fun l => strDrop l ("*** Update File: ".length)))
    ++ ((lines.filter (fun l => jsStartsWith l "*** Delete File: ")).map
      (fun l => strDrop l ("*** Delete File: ".length)))

/-- `identifyFilesAdded` (apply-patch.ts lines 563-568). -/
def identifyFilesAdded (text : String) : List String :=
  let lines := splitNl text
  (lines.filter (fun l => jsStartsWith l "*** Add File: ")).map
    (fun l => strDrop l ("*** Add File: ".length))

-- ------------------------------------------------------------------ --
-- Specification-side definitions (written from the spec's words, for
-- comparison with the source-translated functions above)
-- ------------------------------------------------------------------ --

/-- From the spec's description of commit synthesis: the error condition —
some chunk's `orig_index` exceeds the file's line count, or the running
cursor (advanced by `orig_index + len(del_lines)` per chunk) overruns a
chunk's `orig_index`. -/
def chunksViolate (fileLen : Nat) : List Chunk → Nat → Bool
  | [], _ => false
  | ch :: rest, cursor =>
    decide (ch.origIndex > fileLen) || decide (cursor > ch.origIndex) ||
      chunksViolate fileLen rest (ch.origIndex + ch.delLines.length)

/-- From the spec's description of commit synthesis: for each chunk in
order, copy the original lines from the cursor up to the chunk's
`orig_index`, emit the chunk's `ins_lines`, advance the cursor by
`len(del_lines)`, and finally append the remaining original tail. -/
def specUpdatedLines (origLines : List String) : List Chunk → Nat → List String
  | [], cursor => origLines.drop cursor
  | ch :: rest, cursor =>
    (origLines.drop cursor).take (ch.origIndex - cursor) ++ ch.insLines ++
      specUpdatedLines origLines rest (ch.origIndex + ch.delLines.length)

/-- The monotonicity invariant claimed for chunk lists:
`chunk[i+1].orig_index ≥ chunk[i].orig_index + len(chunk[i].del_lines)`. -/
def chunksMonotone : List Chunk → Bool
  | [] => true
  | a :: rest =>
    match rest with
    | [] => true
    | b :: _ =>
      decide (a.origIndex + a.delLines.length ≤ b.origIndex) && chunksMonotone rest

/-- Monotonicity of a chunk list relative to a starting cursor. -/
def monoFrom : Nat → List Chunk → Prop
  | _, [] => True
  | cursor, ch :: rest =>
    cursor ≤ ch.origIndex ∧ monoFrom (ch.origIndex + ch.delLines.length) rest

/-- The transformation of the CR-tolerance claim: strip a trailing `\r`
from every line of the text. -/
def stripTrailingCRs (text : String) : String :=
  joinNl ((splitNl text).map normLine)

/-- From the spec: the path a line contributes to `files_needed` as an
update target, when it carries one. -/
def updatePathOf (l : String) : Option String :=
  if jsStartsWith l "*** Update File: " then some (strDrop l ("*** Update File: ".length))
  else none

/-- From the spec: the path a line contributes to `files_needed` as a
delete target, when it carries one. -/
def deletePathOf (l : String) : Option String :=
  if jsStartsWith l "*** Delete File: " then some (strDrop l ("*** Delete File: ".length))
  else none

-- ------------------------------------------------------------------ --
-- Concrete values used by witnesses
-- ------------------------------------------------------------------ --

/-- A concrete update action replacing line `b` of `a\nb` with `B`. -/
def wAct3 : PatchAction :=
  { type := ActionType.update, chunks := [{ origIndex := 1, delLines := ["b"], insLines := ["B"] }] }

/-- A concrete update action with two well-separated chunks. -/
def wAct9 : PatchAction :=
  { type := ActionType.update,
    chunks := [{ origIndex := 0, delLines := [], insLines := ["h"] },
               { origIndex := 2, delLines := ["c"], insLines := [] }] }

/-- A concrete commit whose single update moves `old` to `new`. -/
def wCommit4 : Commit :=
  { changes := [("old",
      { type := ActionType.update, oldContent := some "x",
        newContent := some "v", movePath := some "new" })] }

-- ------------------------------------------------------------------ --
-- Helper lemmas: left-to-right scans
-- ------------------------------------------------------------------ --

theorem scanFirst_eq_none_iff (p : Nat → Bool) :
    ∀ (fuel i : Nat),
      scanFirst p i fuel = none ↔ ∀ j, i ≤ j → j < i + fuel → p j = false := by
  intro fuel
  induction fuel with
  | zero =>
    intro i
    constructor
    · intro _ j h1 h2
      exact absurd h2 (by omega)
    · intro _
      rfl
  | succ n ih =>
    intro i
    simp only [scanFirst]
    by_cases hp : p i = true
    · rw [if_pos hp]
      constructor
      · intro h
        exact absurd h (by simp)
      · intro h
        have hfi := h i (Nat.le_refl i) (by omega)
        rw [hp] at hfi
        simp at hfi
    · rw [if_neg hp]
      rw [ih (i + 1)]
      have hpf : p i = false := by
        revert hp
        cases p i <;> simp
      constructor
      · intro h j hj1 hj2
        rcases Nat.eq_or_lt_of_le hj1 with heq | hlt
        · rw [← heq]
          exact hpf
        · exact h j hlt (by omega)
      · intro h j hj1 hj2
        exact h j (by omega) (by omega)

theorem scanFirst_eq_some_iff (p : Nat → Bool) :
    ∀ (fuel i r : Nat),
      scanFirst p i fuel = some r ↔
        (i ≤ r ∧ r < i + fuel ∧ p r = true ∧ ∀ j, i ≤ j → j < r → p j = false) := by
  intro fuel
  induction fuel with
  | zero =>
    intro i r
    constructor
    · intro h
      exact absurd h (by simp [scanFirst])
    · rintro ⟨h1, h2, _, _⟩
      exact absurd h2 (by omega)
  | succ n ih =>
    intro i r
    simp only [scanFirst]
    by_cases hp : p i = true
    · rw [if_pos hp]
      constructor
      · intro h
        have hri : r = i := by
          cases h
          rfl
        subst hri
        exact ⟨Nat.le_refl r, by omega, hp, fun j hj1 hj2 => absurd hj2 (by omega)⟩
      · rintro ⟨h1, _, h3, h4⟩
        rcases Nat.eq_or_lt_of_le h1 with heq | hlt
        · rw [heq]
        · have := h4 i (Nat.le_refl i) hlt
          rw [hp] at this
          simp at this
    · rw [if_neg hp]
      rw [ih (i + 1) r]
      have hpf : p i = false := by
        revert hp
        cases p i <;> simp
      constructor
      · rintro ⟨h1, h2, h3, h4⟩
        refine ⟨by omega, by omega, h3, ?_⟩
        intro j hj1 hj2
        rcases Nat.eq_or_lt_of_le hj1 with heq | hlt
        · rw [← heq]
          exact hpf
        · exact h4 j hlt hj2
      · rintro ⟨h1, h2, h3, h4⟩
        have hri : r ≠ i := by
          intro heq
          rw [heq] at h3
          rw [hpf] at h3
          simp at h3
        exact ⟨by omega, by omega, h3, fun j hj1 hj2 => h4 j (by omega) hj2⟩

theorem scanRange_eq_some_iff (p : Nat → Bool) (s n r : Nat)
    (bound : ∀ j, p j = true → j ≤ n) :
    scanRange p s n = some r ↔
      (s ≤ r ∧ p r = true ∧ ∀ j, s ≤ j → j < r → p j = false) := by
  unfold scanRange
  rw [scanFirst_eq_some_iff]
  constructor
  · rintro ⟨h1, _, h3, h4⟩
    exact ⟨h1, h3, h4⟩
  · rintro ⟨h1, h3, h4⟩
    have := bound r h3
    exact ⟨h1, by omega, h3, h4⟩

theorem scanRange_eq_none_iff (p : Nat → Bool) (s n : Nat)
    (bound : ∀ j, p j = true → j ≤ n) :
    scanRange p s n = none ↔ ∀ j, s ≤ j → p j = false := by
  unfold scanRange
  rw [scanFirst_eq_none_iff]
  constructor
  · intro h j hj
    by_cases hc : j < s + (n + 1 - s)
    · exact h j hj hc
    · cases hpj : p j with
      | false => rfl
      | true =>
        have := bound j hpj
        exact absurd hc (by omega)
  · intro h j hj _
    exact h j hj

theorem tierMatch_le (f : String → String) (L C : List String) (j : Nat)
    (h : tierMatch f L C j = true) : j ≤ L.length := by
  unfold tierMatch at h
  rw [Bool.and_eq_true] at h
  have := of_decide_eq_true h.1
  omega

-- ------------------------------------------------------------------ --
-- C1: the non-EOF locator is the three-tier ladder
-- ------------------------------------------------------------------ --

/-- C1: for every line array `L`, context `C` and starting index `s`, the
non-EOF locator `findContext L C s false` behaves as the three-tier
ladder: an empty `C` matches at `s` with fuzz 0; otherwise a result with
fuzz 0 is the earliest tier-1 (exact) match at or after `s`; fuzz 1 means
no tier-1 match exists anywhere at or after `s` and the result is the
earliest tier-2 (trailing-whitespace-stripped) match; fuzz 100 means no
tier-1 or tier-2 match exists and the result is the earliest tier-3
(fully trimmed) match; `none` means no tier matches at all, and the only
possible fuzz values are 0, 1 and 100 (resp. 0 for `none`). -/
theorem claim1_nonEofLadder (L C : List String) (s : Nat) :
    (C = [] → findContext L C s false = (some s, 0)) ∧
    (C ≠ [] →
      ((∀ p, findContext L C s false = (some p, 0) →
          s ≤ p ∧ tierMatch idf L C p = true ∧
            ∀ j, s ≤ j → j < p → tierMatch idf L C j = false) ∧
       (∀ p, findContext L C s false = (some p, 1) →
          (∀ j, s ≤ j → tierMatch idf L C j = false) ∧
          s ≤ p ∧ tierMatch rstrip L C p = true ∧
            ∀ j, s ≤ j → j < p → tierMatch rstrip L C j = false) ∧
       (∀ p, findContext L C s false = (some p, 100) →
          (∀ j, s ≤ j → tierMatch idf L C j = false) ∧
          (∀ j, s ≤ j → tierMatch rstrip L C j = false) ∧
          s ≤ p ∧ tierMatch jsTrim L C p = true ∧
            ∀ j, s ≤ j → j < p → tierMatch jsTrim L C j = false) ∧
       (findContext L C s false = (none, 0) →
          ∀ j, s ≤ j →
            tierMatch idf L C j = false ∧ tierMatch rstrip L C j = false ∧
              tierMatch jsTrim L C j = false) ∧
       (∀ p f, findContext L C s false = (some p, f) → f = 0 ∨ f = 1 ∨ f = 100) ∧
       (∀ f, findContext L C s false = (none, f) → f = 0))) := by
  have hfc : findContext L C s false = findContextCore L C s := rfl
  constructor
  · intro hC
    subst hC
    rw [hfc]
    simp [findContextCore]
  · intro hC
    have hlen : ¬ C.length = 0 := by
      intro h0
      exact hC (List.length_eq_zero.mp h0)
    have b1 := tierMatch_le idf L C
    have b2 := tierMatch_le rstrip L C
    have b3 := tierMatch_le jsTrim L C
    rw [hfc]
    unfold findContextCore
    rw [if_neg hlen]
    cases h1 : scanRange (tierMatch idf L C) s L.length with
    | some i1 =>
      obtain ⟨hs1, ht1, hm1⟩ := (scanRange_eq_some_iff _ _ _ _ b1).mp h1
      refine ⟨?_, ?_, ?_, ?_, ?_, ?_⟩
      · intro p hp
        simp only [Prod.mk.injEq, Option.some.injEq] at hp
        rw [← hp.1]
        exact ⟨hs1, ht1, hm1⟩
      · intro p hp
        simp at hp
      · intro p hp
        simp at hp
      · intro hp
        simp at hp
      · intro p f hp
        simp only [Prod.mk.injEq, Option.some.injEq] at hp
        omega
      · intro f hp
        simp at hp
    | none =>
      have hn1 := (scanRange_eq_none_iff _ _ _ b1).mp h1
      cases h2 : scanRange (tierMatch rstrip L C) s L.length with
      | some i2 =>
        obtain ⟨hs2, ht2, hm2⟩ := (scanRange_eq_some_iff _ _ _ _ b2).mp h2
        refine ⟨?_, ?_, ?_, ?_, ?_, ?_⟩
        · intro p hp
          simp at hp
        · intro p hp
          simp only [Prod.mk.injEq, Option.some.injEq] at hp
          rw [← hp.1]
          exact ⟨hn1, hs2, ht2, hm2⟩
        · intro p hp
          simp at hp
        · intro hp
          simp at hp
        · intro p f hp
          simp only [Prod.mk.injEq, Option.some.injEq] at hp
          omega
        · intro f hp
          simp at hp
      | none =>
        have hn2 := (scanRange_eq_none_iff _ _ _ b2).mp h2
        cases h3 : scanRange (tierMatch jsTrim L C) s L.length with
        | some i3 =>
          obtain ⟨hs3, ht3, hm3⟩ := (scanRange_eq_some_iff _ _ _ _ b3).mp h3
          refine ⟨?_, ?_, ?_, ?_, ?_, ?_⟩
          · intro p hp
            simp at hp
          · intro p hp
            simp at hp
          · intro p hp
            simp only [Prod.mk.injEq, Option.some.injEq] at hp
            rw [← hp.1]
            exact ⟨hn1, hn2, hs3, ht3, hm3⟩
          · intro hp
            simp at hp
          · intro p f hp
            simp only [Prod.mk.injEq, Option.some.injEq] at hp
            omega
          · intro f hp
            simp at hp
        | none =>
          have hn3 := (scanRange_eq_none_iff _ _ _ b3).mp h3
          refine ⟨?_, ?_, ?_, ?_, ?_, ?_⟩
          · intro p hp
            simp at hp
          · intro p hp
            simp at hp
          · intro p hp
            simp at hp
          · intro _ j hj
            exact ⟨hn1 j hj, hn2 j hj, hn3 j hj⟩
          · intro p f hp
            simp at hp
          · intro f hp
            simp only [Prod.mk.injEq] at hp
            omega

/-- Witness for C1 at a concrete input: the ladder facts at
`L = ["x ", "y"]`, `C = ["x"]`, `s = 0` (a tier-2 match at position 0). -/
theorem claim1_nonEofLadder_witness :
    (∀ j, 0 ≤ j → tierMatch idf ["x ", "y"] ["x"] j = false) ∧
    tierMatch rstrip ["x ", "y"] ["x"] 0 = true := by
  have h := (claim1_nonEofLadder ["x ", "y"] ["x"] 0).2 (by simp)
  have h2 := h.2.1 0 (by decide)
  exact ⟨h2.1, h2.2.2.1⟩

-- ------------------------------------------------------------------ --
-- C2: the EOF locator
-- ------------------------------------------------------------------ --

theorem tierMatch_add_le (f : String → String) (L C : List String) (j : Nat)
    (h : tierMatch f L C j = true) : j + C.length ≤ L.length := by
  unfold tierMatch at h
  rw [Bool.and_eq_true] at h
  exact of_decide_eq_true h.1

theorem findContextCore_suffix_pos (L C : List String) (i f : Nat)
    (h : findContextCore L C (L.length - C.length) = (some i, f)) :
    i = L.length - C.length := by
  unfold findContextCore at h
  by_cases hlen : C.length = 0
  · rw [if_pos hlen] at h
    simp only [Prod.mk.injEq, Option.some.injEq] at h
    exact h.1.symm
  · rw [if_neg hlen] at h
    have step : ∀ f' : String → String, ∀ r : Nat,
        scanRange (tierMatch f' L C) (L.length - C.length) L.length = some r →
        r = L.length - C.length := by
      intro f' r hr
      obtain ⟨hr1, hr2, _⟩ :=
        (scanRange_eq_some_iff _ _ _ _ (tierMatch_le f' L C)).mp hr
      have := tierMatch_add_le f' L C r hr2
      omega
    cases h1 : scanRange (tierMatch idf L C) (L.length - C.length) L.length with
    | some r =>
      rw [h1] at h
      simp only [Prod.mk.injEq, Option.some.injEq] at h
      rw [← h.1]
      exact step idf r h1
    | none =>
      rw [h1] at h
      cases h2 : scanRange (tierMatch rstrip L C) (L.length - C.length) L.length with
      | some r =>
        rw [h2] at h
        simp only [Prod.mk.injEq, Option.some.injEq] at h
        rw [← h.1]
        exact step rstrip r h2
      | none =>
        rw [h2] at h
        cases h3 : scanRange (tierMatch jsTrim L C) (L.length - C.length) L.length with
        | some r =>
          rw [h3] at h
          simp only [Prod.mk.injEq, Option.some.injEq] at h
          rw [← h.1]
          exact step jsTrim r h3
        | none =>
          rw [h3] at h
          simp at h

/-- C2: with the `eof` flag set, `findContext` first attempts to match `C`
as a suffix of `L` — the suffix attempt searches from
`max(0, len(L) - len(C))` under the same three-tier ladder
(`findContextCore`), and any position it returns is exactly
`len(L) - len(C)` —; if the suffix attempt fails, the result is the
forward search from `s` with 10,000 added to the returned fuzz. -/
theorem claim2_eofLocator (L C : List String) (s : Nat) :
    (∀ i f, findContextCore L C (L.length - C.length) = (some i, f) →
        findContext L C s true = (some i, f) ∧ i = L.length - C.length) ∧
    ((findContextCore L C (L.length - C.length)).1 = none →
        findContext L C s true =
          ((findContextCore L C s).1, (findContextCore L C s).2 + 10000)) := by
  have hdef : findContext L C s true =
      match findContextCore L C (L.length - C.length) with
      | (some i, fz) => (some i, fz)
      | (none, _) => ((findContextCore L C s).1, (findContextCore L C s).2 + 10000) := rfl
  constructor
  · intro i f h
    refine ⟨?_, findContextCore_suffix_pos L C i f h⟩
    rw [hdef, h]
  · intro h
    rcases hp : findContextCore L C (L.length - C.length) with ⟨o, z⟩
    rw [hp] at h
    simp only at h
    subst h
    rw [hdef, hp]

/-- Witness for C2: a successful suffix match at `L = ["a","b"]`,
`C = ["b"]`, and a failed one at `L = ["a"]`, `C = ["z"]`. -/
theorem claim2_eofLocator_witness :
    findContext ["a", "b"] ["b"] 0 true = (some 1, 0) ∧
    findContext ["a"] ["z"] 0 true = (none, 10000) := by
  constructor
  · exact ((claim2_eofLocator ["a", "b"] ["b"] 0).1 1 0 (by decide)).1
  · have h := (claim2_eofLocator ["a"] ["z"] 0).2 (by decide)
    rw [h]
    decide

-- ------------------------------------------------------------------ --
-- C3: commit synthesis for updates
-- ------------------------------------------------------------------ --

theorem getUpdatedGo_spec (origLines : List String) (path : String)
    (chunks : List Chunk) :
    ∀ (dest : List String) (cursor : Nat),
      (chunksViolate origLines.length chunks cursor = true →
        ∃ e, getUpdatedGo origLines path chunks dest cursor = .error e) ∧
      (chunksViolate origLines.length chunks cursor = false →
        getUpdatedGo origLines path chunks dest cursor =
          .ok (dest ++ specUpdatedLines origLines chunks cursor)) := by
  induction chunks with
  | nil =>
    intro dest cursor
    constructor
    · intro hv
      simp [chunksViolate] at hv
    · intro _
      simp [getUpdatedGo, specUpdatedLines]
  | cons ch rest ih =>
    intro dest cursor
    by_cases h1 : ch.origIndex > origLines.length
    · constructor
      · intro _
        refine ⟨⟨path ++ ": chunk.origIndex " ++ Nat.repr ch.origIndex ++
          " exceeds file length"⟩, ?_⟩
        simp [getUpdatedGo, if_pos h1]
      · intro hv
        exfalso
        simp [chunksViolate, h1] at hv
    · by_cases h2 : cursor > ch.origIndex
      · constructor
        · intro _
          refine ⟨⟨path ++ ": overlapping chunks at " ++ Nat.repr cursor ++ " > " ++
            Nat.repr ch.origIndex⟩, ?_⟩
          simp [getUpdatedGo, h1, h2]
        · intro hv
          exfalso
          simp [chunksViolate, h1, h2] at hv
      · have hrec := ih
          (dest ++ (origLines.drop cursor).take (ch.origIndex - cursor) ++ ch.insLines)
          (ch.origIndex + ch.delLines.length)
        have hunf : getUpdatedGo origLines path (ch :: rest) dest cursor =
            getUpdatedGo origLines path rest
              (dest ++ (origLines.drop cursor).take (ch.origIndex - cursor) ++ ch.insLines)
              (ch.origIndex + ch.delLines.length) := by
          simp [getUpdatedGo, h1, h2]
        have hviol : chunksViolate origLines.length (ch :: rest) cursor =
            chunksViolate origLines.length rest (ch.origIndex + ch.delLines.length) := by
          simp [chunksViolate, h1, h2]
        constructor
        · intro hv
          rw [hviol] at hv
          obtain ⟨e, he⟩ := hrec.1 hv
          exact ⟨e, by rw [hunf]; exact he⟩
        · intro hv
          rw [hviol] at hv
          rw [hunf, hrec.2 hv]
          simp [specUpdatedLines, List.append_assoc]

/-- C3: for an `Update` action, commit synthesis (`getUpdatedFile`) raises
a `DiffError` exactly when some chunk's `orig_index` exceeds the file's
line count or the running cursor overruns a chunk's `orig_index`
(`chunksViolate`); otherwise it returns the content described by the
spec — per chunk, the original lines from the cursor up to `orig_index`,
then the chunk's `ins_lines`, the cursor advancing by `len(del_lines)`,
and finally the original tail — rejoined with a newline. -/
theorem claim3_commitSynthesis (text : String) (action : PatchAction) (path : String)
    (h : action.type = ActionType.update) :
    (chunksViolate (splitNl text).length action.chunks 0 = true →
      ∃ e, getUpdatedFile text action path = .error e) ∧
    (chunksViolate (splitNl text).length action.chunks 0 = false →
      getUpdatedFile text action path =
        .ok (joinNl (specUpdatedLines (splitNl text) action.chunks 0))) := by
  have hne : ¬ action.type ≠ ActionType.update := by simp [h]
  have hg := getUpdatedGo_spec (splitNl text) path action.chunks [] 0
  constructor
  · intro hv
    obtain ⟨e, he⟩ := hg.1 hv
    exact ⟨e, by unfold getUpdatedFile; rw [if_neg hne, he]⟩
  · intro hv
    unfold getUpdatedFile
    rw [if_neg hne, hg.2 hv]
    simp

/-- Witness for C3: synthesising `wAct3` against `a\nb` replaces the
second line. -/
theorem claim3_commitSynthesis_witness :
    getUpdatedFile "a\nb" wAct3 "f" =
      .ok (joinNl (specUpdatedLines (splitNl "a\nb") wAct3.chunks 0)) ∧
    joinNl (specUpdatedLines (splitNl "a\nb") wAct3.chunks 0) = "a\nB" := by
  constructor
  · exact (claim3_commitSynthesis "a\nb" wAct3 "f" rfl).2 (by decide)
  · decide

-- ------------------------------------------------------------------ --
-- C4: the paths of the output mapping
-- ------------------------------------------------------------------ --

theorem exists_mem_cons_split {α : Type} (a : α) (l : List α) (P : α → Prop) :
    (∃ x, x ∈ a :: l ∧ P x) ↔ P a ∨ ∃ x, x ∈ l ∧ P x := by
  constructor
  · rintro ⟨x, hx, hp⟩
    rcases List.mem_cons.mp hx with rfl | hmem
    · exact Or.inl hp
    · exact Or.inr ⟨x, hmem, hp⟩
  · rintro (hp | ⟨x, hmem, hp⟩)
    · exact ⟨a, List.mem_cons_self a l, hp⟩
    · exact ⟨x, List.mem_cons_of_mem a hmem, hp⟩

theorem mem_keys_recordSet (r : List (String × String)) (k v q : String) :
    q ∈ (recordSet r k v).map Prod.fst ↔ q ∈ r.map Prod.fst ∨ q = k := by
  unfold recordSet
  by_cases h : r.any (fun kv => kv.1 == k) = true
  · rw [if_pos h]
    have hpt : ∀ kv : String × String, (if kv.1 == k then (k, v) else kv).1 = kv.1 := by
      intro kv
      by_cases hk : kv.1 = k
      · simp [hk]
      · simp [hk]
    have hkeys : (r.map (fun kv => if kv.1 == k then (k, v) else kv)).map Prod.fst
        = r.map Prod.fst := by
      rw [List.map_map]
      apply List.map_congr_left
      intro kv _
      exact hpt kv
    rw [hkeys]
    constructor
    · exact Or.inl
    · rintro (hq | rfl)
      · exact hq
      · obtain ⟨kv, hkv, hbeq⟩ := List.any_eq_true.mp h
        have : kv.1 = q := by simpa using hbeq
        rw [← this]
        exact List.mem_map_of_mem Prod.fst hkv
  · rw [if_neg h]
    simp

theorem applyCommitGo_keys (changes : List (String × FileChange)) :
    ∀ (acc out : List (String × String)),
      applyCommitGo changes acc = .ok out →
      ∀ q, q ∈ out.map Prod.fst ↔
        q ∈ acc.map Prod.fst ∨
          ∃ pc, pc ∈ changes ∧
            ((pc.2.type = ActionType.add ∧ q = pc.1) ∨
             (pc.2.type = ActionType.update ∧ q = jsOrPath pc.2.movePath pc.1)) := by
  induction changes with
  | nil =>
    intro acc out h q
    simp only [applyCommitGo] at h
    cases h
    simp
  | cons pc rest ih =>
    intro acc out h q
    obtain ⟨path, change⟩ := pc
    cases htype : change.type with
    | delete =>
      simp only [applyCommitGo, htype] at h
      rw [ih acc out h q, exists_mem_cons_split]
      simp only [htype]
      constructor
      · rintro (hq | hq)
        · exact Or.inl hq
        · exact Or.inr (Or.inr hq)
      · rintro (hq | (⟨hty, _⟩ | ⟨hty, _⟩) | hq)
        · exact Or.inl hq
        · exact absurd hty (by simp)
        · exact absurd hty (by simp)
        · exact Or.inr hq
    | add =>
      simp only [applyCommitGo, htype] at h
      cases hnc : change.newContent with
      | none =>
        rw [hnc] at h
        exact absurd h (by simp)
      | some c =>
        rw [hnc] at h
        rw [ih _ out h q, mem_keys_recordSet, exists_mem_cons_split]
        simp only [htype]
        constructor
        · rintro ((hq | rfl) | hq)
          · exact Or.inl hq
          · exact Or.inr (Or.inl (Or.inl ⟨trivial, rfl⟩))
          · exact Or.inr (Or.inr hq)
        · rintro (hq | (⟨_, rfl⟩ | ⟨hty, _⟩) | hq)
          · exact Or.inl (Or.inl hq)
          · exact Or.inl (Or.inr rfl)
          · exact absurd hty (by simp)
          · exact Or.inr hq
    | update =>
      simp only [applyCommitGo, htype] at h
      cases hnc : change.newContent with
      | none =>
        rw [hnc] at h
        exact absurd h (by simp)
      | some c =>
        rw [hnc] at h
        rw [ih _ out h q, mem_keys_recordSet, exists_mem_cons_split]
        simp only [htype]
        constructor
        · rintro ((hq | rfl) | hq)
          · exact Or.inl hq
          · exact Or.inr (Or.inl (Or.inr ⟨trivial, rfl⟩))
          · exact Or.inr (Or.inr hq)
        · rintro (hq | (⟨hty, _⟩ | ⟨_, rfl⟩) | hq)
          · exact Or.inl (Or.inl hq)
          · exact absurd hty (by simp)
          · exact Or.inl (Or.inr rfl)
          · exact Or.inr hq

/-- C4 counterexample: the empty patch applied to `{a ↦ x}` succeeds and
returns the empty mapping, so the unmentioned input path `a` is absent
from the output — contrary to the claim that unmentioned paths of `F` are
present. -/
theorem claim4_counterexample :
    processPatch "*** Begin Patch\n*** End Patch" [("a", "x")] =
      Except.ok ([] : List (String × String)) ∧
    "a" ∈ ([("a", "x")] : List (String × String)).map Prod.fst := by
  constructor
  · rfl
  · decide

/-- C4 (amended): for any commit that `applyCommit` accepts, the set of
output paths is exactly the add paths together with, for each update, its
move target if one is present (and non-empty) or its original path
otherwise; deleted paths and paths unmentioned by the patch are absent. -/
theorem claim4_outputPaths (commit : Commit) (out : List (String × String))
    (h : applyCommit commit = .ok out) (q : String) :
    q ∈ out.map Prod.fst ↔
      ∃ pc, pc ∈ commit.changes ∧
        ((pc.2.type = ActionType.add ∧ q = pc.1) ∨
         (pc.2.type = ActionType.update ∧ q = jsOrPath pc.2.movePath pc.1)) := by
  have hk := applyCommitGo_keys commit.changes [] out h q
  simpa using hk

/-- Witness for the amended C4 at the concrete commit `wCommit4`
(an update moved from `old` to `new`). -/
theorem claim4_outputPaths_witness :
    ∃ pc, pc ∈ wCommit4.changes ∧
      (((pc.2.type = ActionType.add ∧ "new" = pc.1) ∨
        (pc.2.type = ActionType.update ∧ "new" = jsOrPath pc.2.movePath pc.1))) := by
  have h := claim4_outputPaths wCommit4 [("new", "v")] (by decide) "new"
  exact h.mp (by decide)

-- ------------------------------------------------------------------ --
-- C5: blank lines inside hunk bodies
-- ------------------------------------------------------------------ --

/-- C5: behavior of the code at the failing input.  The entirely empty
line inside the hunk body is skipped by `peekNextSection`
(`if (!s) { index += 1; continue; }`), so the hunk's old context is
`["a", "b"]` — the blank line contributes nothing (it is NOT turned into
the keep-line `" "`) — and consequently a patch whose hunk contains an
empty line fails to match a file with a blank line at that position: the
full application raises an invalid-context `DiffError`.  The
normalization `if (s === "") { line = " " }` at source line 404 is
unreachable. -/
theorem claim5_blankLineSkipped :
    peekNextSection [" a", "", " b", "*** End Patch"] 0 =
      Except.ok (["a", "b"], [], 3, false) ∧
    isOkE (processPatch "*** Begin Patch\n*** Update File: f\n a\n\n b\n*** End Patch"
      [("f", "a\n\nb")]) = false := by
  constructor
  · rfl
  · rfl

-- ------------------------------------------------------------------ --
-- C6: anchor resolution
-- ------------------------------------------------------------------ --

theorem anchorScan_none (p : Nat → Bool) (index len : Nat)
    (h : ∀ k, index ≤ k → k < len → p k = false) :
    scanFirst p index (len - index) = none := by
  rw [scanFirst_eq_none_iff]
  intro j hj1 hj2
  exact h j hj1 (by omega)

theorem anchorScan_some (p : Nat → Bool) (index len j : Nat)
    (hj1 : index ≤ j) (hj2 : j < len) (hp : p j = true)
    (hmin : ∀ k, index ≤ k → k < j → p k = false) :
    scanFirst p index (len - index) = some j := by
  rw [scanFirst_eq_some_iff]
  exact ⟨hj1, by omega, hp, hmin⟩

/-- C6 counterexample: a hunk whose `@@` anchor (`zzz`) occurs nowhere in
the file parses successfully — the claim that a missing anchor causes the
hunk to be rejected with an invalid-context `DiffError` is false. -/
theorem claim6_counterexample :
    isOkE (textToPatch "*** Begin Patch\n*** Update File: f\n@@ zzz\n a\n*** End Patch"
      [("f", "a")]) = true ∧
    "zzz" ∉ splitNl "a" := by
  constructor
  · rfl
  · decide

/-- C6 (amended): anchor resolution for `@@ <anchor>` headers.  When an
exact occurrence of the anchor exists at or after the cursor (and the
anchor does not already occur before the cursor), the cursor moves to the
line after the earliest such occurrence with fuzz 0.  Failing the exact
attempt, when a trim-equal occurrence exists at or after the cursor (and
none occurs trim-equal before the cursor), the cursor moves past the
earliest one and 1 is added to the fuzz counter.  When the anchor is not
found at all, the cursor is left UNCHANGED and no error is raised at this
point; an "invalid context" `DiffError` arises only if the hunk's context
subsequently fails to locate. -/
theorem claim6_anchorResolution (fileLines : List String) (defStr : String) (index : Nat) :
    (∀ j, ¬ (fileLines.take index).contains defStr = true →
        index ≤ j → j < fileLines.length → fileLines.getD j "" = defStr →
        (∀ k, index ≤ k → k < j → fileLines.getD k "" ≠ defStr) →
        resolveAnchor fileLines defStr index = (j + 1, 0)) ∧
    (∀ j, ((fileLines.take index).contains defStr = true ∨
            ∀ k, index ≤ k → k < fileLines.length → fileLines.getD k "" ≠ defStr) →
        ¬ ((fileLines.take index).map jsTrim).contains (jsTrim defStr) = true →
        index ≤ j → j < fileLines.length → jsTrim (fileLines.getD j "") = jsTrim defStr →
        (∀ k, index ≤ k → k < j → jsTrim (fileLines.getD k "") ≠ jsTrim defStr) →
        resolveAnchor fileLines defStr index = (j + 1, 1)) ∧
    (((fileLines.take index).contains defStr = true ∨
        ∀ k, index ≤ k → k < fileLines.length → fileLines.getD k "" ≠ defStr) →
      (((fileLines.take index).map jsTrim).contains (jsTrim defStr) = true ∨
        ∀ k, index ≤ k → k < fileLines.length →
          jsTrim (fileLines.getD k "") ≠ jsTrim defStr) →
      resolveAnchor fileLines defStr index = (index, 0)) := by
  have exactNone :
      ((fileLines.take index).contains defStr = true ∨
        ∀ k, index ≤ k → k < fileLines.length → fileLines.getD k "" ≠ defStr) →
      (if (fileLines.take index).contains defStr then none
       else scanFirst (fun i => fileLines.getD i "" == defStr) index
         (fileLines.length - index) : Option Nat) = none := by
    intro hex
    by_cases hc : (fileLines.take index).contains defStr = true
    · rw [if_pos hc]
    · rw [if_neg hc]
      rcases hex with hc' | hnone
      · exact absurd hc' hc
      · exact anchorScan_none _ index fileLines.length
          (fun k hk1 hk2 => beq_eq_false_iff_ne.mpr (hnone k hk1 hk2))
  have trimNone :
      (((fileLines.take index).map jsTrim).contains (jsTrim defStr) = true ∨
        ∀ k, index ≤ k → k < fileLines.length →
          jsTrim (fileLines.getD k "") ≠ jsTrim defStr) →
      (if ((fileLines.take index).map jsTrim).contains (jsTrim defStr) then none
       else scanFirst (fun i => jsTrim (fileLines.getD i "") == jsTrim defStr) index
         (fileLines.length - index) : Option Nat) = none := by
    intro hex
    by_cases hc : ((fileLines.take index).map jsTrim).contains (jsTrim defStr) = true
    · rw [if_pos hc]
    · rw [if_neg hc]
      rcases hex with hc' | hnone
      · exact absurd hc' hc
      · exact anchorScan_none _ index fileLines.length
          (fun k hk1 hk2 => beq_eq_false_iff_ne.mpr (hnone k hk1 hk2))
  refine ⟨?_, ?_, ?_⟩
  · intro j hg hj1 hj2 hj hmin
    unfold resolveAnchor
    rw [if_neg hg]
    rw [anchorScan_some (fun i => fileLines.getD i "" == defStr) index
      fileLines.length j hj1 hj2 (beq_iff_eq.mpr hj)
      (fun k hk1 hk2 => beq_eq_false_iff_ne.mpr (hmin k hk1 hk2))]
  · intro j hex hg hj1 hj2 hj hmin
    unfold resolveAnchor
    rw [exactNone hex]
    rw [if_neg hg]
    rw [anchorScan_some (fun i => jsTrim (fileLines.getD i "") == jsTrim defStr) index
      fileLines.length j hj1 hj2 (beq_iff_eq.mpr hj)
      (fun k hk1 hk2 => beq_eq_false_iff_ne.mpr (hmin k hk1 hk2))]
  · intro hex htr
    unfold resolveAnchor
    rw [exactNone hex, trimNone htr]

/-- Witness for the amended C6: resolving anchor `anch` in
`["x", "anch", "y"]` from cursor 0 positions the cursor after the anchor
with fuzz 0. -/
theorem claim6_anchorResolution_witness :
    resolveAnchor ["x", "anch", "y"] "anch" 0 = (2, 0) := by
  exact (claim6_anchorResolution ["x", "anch", "y"] "anch" 0).1 1
    (by decide) (by decide) (by decide) (by decide)
    (fun k hk1 hk2 => by
      have hk0 : k = 0 := by omega
      subst hk0
      decide)

-- ------------------------------------------------------------------ --
-- C7: identifyFilesNeeded
-- ------------------------------------------------------------------ --

theorem map_filter_eq_filterMap {α β : Type} (p : α → Bool) (f : α → β) (l : List α) :
    (l.filter p).map f = l.filterMap (fun x => if p x then some (f x) else none) := by
  induction l with
  | nil => rfl
  | cons a t ih =>
    by_cases h : p a = true
    · simp [List.filter_cons, List.filterMap_cons, h, ih]
    · simp [List.filter_cons, List.filterMap_cons, h, ih]

/-- C7 counterexample: a delete header that precedes an update header is
listed AFTER it — `identifyFilesNeeded` returns all update paths first,
then all delete paths, which is not document order. -/
theorem claim7_counterexample :
    identifyFilesNeeded "*** Delete File: a\n*** Update File: b" = ["b", "a"] ∧
    (["b", "a"] : List String) ≠ ["a", "b"] := by
  constructor
  · rfl
  · decide

/-- C7 (amended): `identifyFilesNeeded` is total (it never raises) and
returns the update-file paths in document order followed by the
delete-file paths in document order. -/
theorem claim7_filesNeeded (text : String) :
    identifyFilesNeeded text =
      (splitNl text).filterMap updatePathOf ++ (splitNl text).filterMap deletePathOf := by
  simp only [identifyFilesNeeded, updatePathOf, deletePathOf, map_filter_eq_filterMap]
  rfl

-- ------------------------------------------------------------------ --
-- C8: CR tolerance
-- ------------------------------------------------------------------ --

/-- C8 counterexample: a CRLF patch adds the file `a\r` with content
`x\r`, while the CR-stripped patch adds `a` with content `x`.  Both
applications succeed, but the mappings differ — even in their path
sets — so applying `P` is NOT equivalent to applying `P` with every
trailing CR stripped. -/
theorem claim8_counterexample :
    processPatch "*** Begin Patch\r\n*** Add File: a\r\n+x\r\n*** End Patch" [] =
      Except.ok [("a\r", "x\r")] ∧
    processPatch
      (stripTrailingCRs "*** Begin Patch\r\n*** Add File: a\r\n+x\r\n*** End Patch") [] =
      Except.ok [("a", "x")] ∧
    ("a\r" : String) ≠ "a" := by
  refine ⟨rfl, rfl, by decide⟩

/-- C8 (amended): a trailing CR is ignored for sentinel and prefix
RECOGNITION only: `Parser._norm` deletes exactly one trailing `\r`, so a
line with a single trailing CR is recognised (via `isDone`, `startsWith`
and the `readStr` guard, all of which test `normLine` of the line) exactly
like its stripped form; but paths and payload text are taken from the raw
line, so full equivalence of `processPatch` fails (see the
counterexample). -/
theorem claim8_normRecognition (l q : String) (h : l.data.getLast? ≠ some '\r') :
    normLine (l ++ "\r") = l ∧ normLine l = l ∧
    jsStartsWith (normLine (l ++ "\r")) q = jsStartsWith (normLine l) q ∧
    (normLine (l ++ "\r") = "*** End Patch" ↔ normLine l = "*** End Patch") := by
  have hdata : (l ++ "\r").data = l.data ++ ['\r'] := by
    rw [String.data_append]
  have h1 : normLine (l ++ "\r") = l := by
    unfold normLine
    rw [hdata, List.getLast?_concat, if_pos rfl, List.dropLast_concat]
  have h2 : normLine l = l := by
    unfold normLine
    rw [if_neg h]
  exact ⟨h1, h2, by rw [h1, h2], by rw [h1, h2]⟩

/-- Witness for the amended C8 at the end-patch sentinel. -/
theorem claim8_normRecognition_witness :
    normLine ("*** End Patch" ++ "\r") = "*** End Patch" ∧
    normLine "*** End Patch" = "*** End Patch" := by
  have h := claim8_normRecognition "*** End Patch" "*** End Patch" (by decide)
  exact ⟨h.1, h.2.1⟩

-- ------------------------------------------------------------------ --
-- C9: monotone chunk offsets
-- ------------------------------------------------------------------ --

/-- C9 counterexample: `textToPatch` succeeds on this patch — the second
hunk is an EOF hunk whose suffix attempt matches BEFORE the per-file
cursor — yet the resulting chunk list is not monotone: both chunks have
`origIndex = 1` while the first deletes one line
(`1 < 1 + 1`). -/
theorem claim9_counterexample :
    textToPatch
      "*** Begin Patch\n*** Update File: f\n a\n-b\n+B\n@@\n-b\n+X\n a\n*** End of File\n*** End Patch"
      [("f", "a\nb\na")] =
      Except.ok
        ({ actions := [("f",
            { type := ActionType.update, newFile := none,
              chunks := [{ origIndex := 1, delLines := ["b"], insLines := ["B"] },
                         { origIndex := 1, delLines := ["b"], insLines := ["X"] }],
              movePath := none })] }, 0) ∧
    chunksMonotone
      [{ origIndex := 1, delLines := ["b"], insLines := ["B"] },
       { origIndex := 1, delLines := ["b"], insLines := ["X"] }] = false := by
  constructor
  · rfl
  · decide

theorem getUpdatedGo_ok_monoFrom (origLines : List String) (path : String)
    (chunks : List Chunk) :
    ∀ (dest : List String) (cursor : Nat) (res : List String),
      getUpdatedGo origLines path chunks dest cursor = .ok res →
      monoFrom cursor chunks := by
  induction chunks with
  | nil =>
    intro dest cursor res _
    simp [monoFrom]
  | cons ch rest ih =>
    intro dest cursor res h
    by_cases h1 : ch.origIndex > origLines.length
    · simp [getUpdatedGo, h1] at h
    · by_cases h2 : cursor > ch.origIndex
      · simp [getUpdatedGo, h1, h2] at h
      · have hunf : getUpdatedGo origLines path (ch :: rest) dest cursor =
            getUpdatedGo origLines path rest
              (dest ++ (origLines.drop cursor).take (ch.origIndex - cursor) ++ ch.insLines)
              (ch.origIndex + ch.delLines.length) := by
          simp [getUpdatedGo, h1, h2]
        rw [hunf] at h
        simp only [monoFrom]
        exact ⟨by omega, ih _ _ _ h⟩

theorem monoFrom_chunksMonotone (chunks : List Chunk) :
    ∀ cursor, monoFrom cursor chunks → chunksMonotone chunks = true := by
  induction chunks with
  | nil =>
    intro _ _
    rfl
  | cons a rest ih =>
    intro cursor h
    simp only [monoFrom] at h
    obtain ⟨h1, h2⟩ := h
    cases rest with
    | nil => rfl
    | cons b rest2 =>
      simp only [monoFrom] at h2
      obtain ⟨hb, hrest⟩ := h2
      simp only [chunksMonotone]
      rw [Bool.and_eq_true]
      constructor
      · exact decide_eq_true (by omega)
      · exact ih (a.origIndex + a.delLines.length) (by simp only [monoFrom]; exact ⟨hb, hrest⟩)

/-- C9 (amended): for every `Update` action that commit synthesis accepts
(`getUpdatedFile` succeeds), the chunk list is monotone:
`chunk[i+1].origIndex ≥ chunk[i].origIndex + len(chunk[i].delLines)`.
(As parsed by `textToPatch` alone the invariant can fail — see the
counterexample — because an EOF hunk's suffix match may land before the
cursor; the violation is only caught when the patch is committed.) -/
theorem claim9_monotoneChunks (text : String) (action : PatchAction) (path res : String)
    (h : getUpdatedFile text action path = Except.ok res) :
    chunksMonotone action.chunks = true := by
  unfold getUpdatedFile at h
  by_cases ht : action.type ≠ ActionType.update
  · rw [if_pos ht] at h
    exact absurd h (by simp)
  · rw [if_neg ht] at h
    cases hg : getUpdatedGo (splitNl text) path action.chunks [] 0 with
    | error e =>
      rw [hg] at h
      exact absurd h (by simp)
    | ok dest =>
      exact monoFrom_chunksMonotone action.chunks 0
        (getUpdatedGo_ok_monoFrom (splitNl text) path action.chunks [] 0 dest hg)

/-- Witness for the amended C9 at the concrete action `wAct9`. -/
theorem claim9_monotoneChunks_witness :
    chunksMonotone wAct9.chunks = true := by
  exact claim9_monotoneChunks "a\nb\nc" wAct9 "f" "h\na\nb" (by decide)

-- ------------------------------------------------------------------ --
-- C10: empty `*** Move to:` path
-- ------------------------------------------------------------------ --

/-- C10: an update whose `*** Move to: ` directive carries an empty path
behaves as if no move directive were present: (i) `readStr` consumes the
directive line and returns the empty string; (ii) the parser records
`movePath := orUndefined "" = none`; (iii) `applyCommit` writes an update
with an absent move path under the original path (`jsOrPath none p = p`);
and (iv) end to end, the original path appears in the output mapping with
the updated content. -/
theorem claim10_emptyMoveTarget :
    (∀ (lines : List String) (index : Nat),
        lines.get? index = some "*** Move to: " →
        readStr lines index "*** Move to: " = .ok ("", index + 1)) ∧
    orUndefined "" = none ∧
    (∀ p : String, jsOrPath none p = p) ∧
    processPatch
      "*** Begin Patch\n*** Update File: a.ts\n*** Move to: \n-x\n+y\n*** End Patch"
      [("a.ts", "x")] = Except.ok [("a.ts", "y")] := by
  refine ⟨?_, rfl, fun p => rfl, rfl⟩
  intro lines index h
  have hdef : readStr lines index "*** Move to: " =
      match lines.get? index with
      | none => Except.error ⟨"Unexpected end of input while parsing patch"⟩
      | some l =>
        if jsStartsWith (normLine l) "*** Move to: " then
          Except.ok (strDrop l ("*** Move to: ".length), index + 1)
        else Except.ok ("", index) := rfl
  rw [hdef, h]
  rfl

/-- Witness for C10: the directive line is consumed and yields the empty
move target. -/
theorem claim10_emptyMoveTarget_witness :
    readStr ["*** Move to: "] 0 "*** Move to: " = .ok ("", 1) := by
  exact claim10_emptyMoveTarget.1 ["*** Move to: "] 0 rfl
